import Mathlib

/-!
# Verification of the recursive-compose composition core

Shallow embedding of `src/single-accumulator.py` and `src/list-files.py`:
the chunker `generate_composition_chunks`, the accumulator composer
`compose`, and the cleanup dispatcher `delete_objects_concurrent`.

The storage gateway is modelled by a store `α → List α` mapping each
object reference to its content (a flat list of content tokens), and by
an event trace recording every gateway interaction (object creation,
compose calls with their full ordered input lists and success flag,
cleanup batches and per-blob delete submissions, and sleeps in
milliseconds).  Gateway compose failures are driven by an oracle
`fails : Nat → Bool` giving the outcome of the i-th compose call.
-/

namespace RecursiveCompose

/-- Python slice `l[:k]` for an arbitrary integer `k`: a nonnegative `k`
takes the first `k` elements; a negative `k` drops the last `|k|`. -/
def pyTake (k : Int) (l : List α) : List α :=
  if 0 ≤ k then l.take k.toNat else l.take (l.length - (-k).toNat)

/-- Python slice `l[k:]` for an arbitrary integer `k`: a nonnegative `k`
drops the first `k` elements; a negative `k` keeps the last `|k|`. -/
def pyDrop (k : Int) (l : List α) : List α :=
  if 0 ≤ k then l.drop k.toNat else l.drop (l.length - (-k).toNat)

/-- The `while len(slices):` loop of `generate_composition_chunks` in
`src/single-accumulator.py` lines 32-35, with explicit fuel: each
iteration yields `slices[:chunk_size]` and continues on
`slices[chunk_size:]`.  `none` means the fuel ran out with the loop
still running. -/
def chunksLoop (chunk_size : Int) : Nat → List α → Option (List (List α))
  | _, [] => some []
  | 0, _ :: _ => none
  | fuel + 1, x :: xs =>
      (chunksLoop chunk_size fuel (pyDrop chunk_size (x :: xs))).map
        (pyTake chunk_size (x :: xs) :: ·)

/-- Fuel-indexed helper for `generate_composition_chunks`: one step per
loop iteration, structural in `fuel`.  Callers pass `slices.length` as
fuel, which is always enough for a positive chunk size because every
iteration consumes at least one element (`genChunksFuel_irrel`). -/
def genChunksFuel (chunk_size : Nat) : Nat → List α → List (List α)
  | _, [] => []
  | 0, _ :: _ => []
  | fuel + 1, x :: xs =>
      (x :: xs.take (chunk_size - 1)) ::
        genChunksFuel chunk_size fuel (xs.drop (chunk_size - 1))

/-- `generate_composition_chunks` (`src/single-accumulator.py` lines
19-35): split `slices` into consecutive chunks of `chunk_size` items
(`slices[:chunk_size]` then `slices = slices[chunk_size:]`), the last
chunk possibly shorter.  The Python default for `chunk_size` is 31.
This terminating version agrees with the source loop `chunksLoop` for
every `chunk_size ≥ 1` (theorem
`chunksLoop_eq_generate_composition_chunks`); for `chunk_size ≤ 0` the
source loop never terminates (lemma `chunksLoop_diverges`). -/
def generate_composition_chunks (chunk_size : Nat) (slices : List α) :
    List (List α) :=
  genChunksFuel chunk_size slices.length slices

/-- Any two fuels at least the list's length give the same chunks. -/
theorem genChunksFuel_eq (k : Nat) :
    ∀ (s : List α) (f1 f2 : Nat), s.length ≤ f1 → s.length ≤ f2 →
      genChunksFuel k f1 s = genChunksFuel k f2 s
  | [], f1, f2, _, _ => by cases f1 <;> cases f2 <;> rfl
  | x :: xs, 0, _, h1, _ => by simp at h1
  | x :: xs, _ + 1, 0, _, h2 => by simp at h2
  | x :: xs, f1 + 1, f2 + 1, h1, h2 => by
      have hd : (xs.drop (k - 1)).length ≤ xs.length := by
        simp only [List.length_drop]
        omega
      simp only [List.length_cons, Nat.add_le_add_iff_right] at h1 h2
      rw [genChunksFuel, genChunksFuel,
        genChunksFuel_eq k (xs.drop (k - 1)) f1 f2
          (le_trans hd h1) (le_trans hd h2)]
termination_by s => s.length
decreasing_by
  simp only [List.length_drop, List.length_cons]
  omega

/-- Any fuel at least the list's length gives the same chunks. -/
theorem genChunksFuel_irrel (k : Nat) (fuel : Nat) (s : List α)
    (h : s.length ≤ fuel) :
    genChunksFuel k fuel s = genChunksFuel k s.length s :=
  genChunksFuel_eq k s fuel s.length h le_rfl

theorem generate_composition_chunks_nil (k : Nat) :
    generate_composition_chunks k ([] : List α) = [] := rfl

theorem generate_composition_chunks_cons' (k : Nat) (x : α) (xs : List α) :
    generate_composition_chunks k (x :: xs) =
      (x :: xs.take (k - 1)) ::
        generate_composition_chunks k (xs.drop (k - 1)) := by
  have hd : (xs.drop (k - 1)).length ≤ xs.length := by
    simp only [List.length_drop]
    omega
  rw [generate_composition_chunks, List.length_cons, genChunksFuel,
    generate_composition_chunks,
    genChunksFuel_irrel k xs.length (xs.drop (k - 1)) hd]

/-- For a positive chunk size, one loop iteration takes `k` and drops `k`. -/
theorem generate_composition_chunks_cons (k : Nat) (hk : 1 ≤ k)
    (x : α) (xs : List α) :
    generate_composition_chunks k (x :: xs) =
      (x :: xs).take k :: generate_composition_chunks k ((x :: xs).drop k) := by
  have h1 : (x :: xs).take k = x :: xs.take (k - 1) := by
    obtain ⟨m, rfl⟩ : ∃ m, k = m + 1 := ⟨k - 1, by omega⟩
    simp
  have h2 : (x :: xs).drop k = xs.drop (k - 1) := by
    obtain ⟨m, rfl⟩ : ∃ m, k = m + 1 := ⟨k - 1, by omega⟩
    simp
  rw [generate_composition_chunks_cons', h1, h2]

/-- The chunks concatenate back to the input list. -/
theorem flatten_generate_composition_chunks (k : Nat) :
    ∀ s : List α, (generate_composition_chunks k s).flatten = s
  | [] => by simp [generate_composition_chunks_nil]
  | x :: xs => by
      rw [generate_composition_chunks_cons', List.flatten_cons,
        flatten_generate_composition_chunks k (xs.drop (k - 1))]
      simp [List.take_append_drop]
termination_by s => s.length
decreasing_by
  simp only [List.length_drop, List.length_cons]
  omega

/-- The number of chunks is `⌈N/K⌉` (as `(N + K - 1) / K`). -/
theorem length_generate_composition_chunks (k : Nat) (hk : 1 ≤ k) :
    ∀ s : List α,
      (generate_composition_chunks k s).length = (s.length + k - 1) / k
  | [] => by
      have h0 : (k - 1) / k = 0 := Nat.div_eq_of_lt (by omega)
      simp [generate_composition_chunks_nil, h0]
  | x :: xs => by
      rw [generate_composition_chunks_cons',
        List.length_cons,
        length_generate_composition_chunks k hk (xs.drop (k - 1))]
      simp only [List.length_drop, List.length_cons]
      rcases le_or_lt (xs.length + 1) k with hle | hlt
      · have ha : xs.length - (k - 1) + k - 1 = k - 1 := by omega
        have hb : xs.length + 1 + k - 1 = xs.length + k := by omega
        rw [ha, hb, Nat.add_div_right _ (by omega),
          Nat.div_eq_of_lt (by omega), Nat.div_eq_of_lt (by omega)]
      · have ha : xs.length - (k - 1) + k - 1 = xs.length := by omega
        have hb : xs.length + 1 + k - 1 = xs.length + k := by omega
        rw [ha, hb, Nat.add_div_right _ (by omega)]
termination_by s => s.length
decreasing_by
  simp only [List.length_drop, List.length_cons]
  omega

/-- Every chunk is nonempty and has at most `k` elements. -/
theorem mem_generate_composition_chunks (k : Nat) (hk : 1 ≤ k) :
    ∀ s : List α, ∀ c ∈ generate_composition_chunks k s,
      c ≠ [] ∧ c.length ≤ k
  | [] => by simp [generate_composition_chunks_nil]
  | x :: xs => by
      rw [generate_composition_chunks_cons']
      intro c hc
      rcases List.mem_cons.mp hc with rfl | hc'
      · refine ⟨by simp, ?_⟩
        simp only [List.length_cons]
        have := List.length_take_le (k - 1) xs
        omega
      · exact mem_generate_composition_chunks k hk (xs.drop (k - 1)) c hc'
termination_by s => s.length
decreasing_by
  simp only [List.length_drop, List.length_cons]
  omega

/-- All chunks except possibly the last have exactly `k` elements. -/
theorem length_of_nonfinal_chunk (k : Nat) (hk : 1 ≤ k) :
    ∀ s : List α, ∀ i : Nat,
      i + 1 < (generate_composition_chunks k s).length →
      ((generate_composition_chunks k s).getD i []).length = k
  | [] => by simp [generate_composition_chunks_nil]
  | x :: xs => by
      intro i hi
      rw [generate_composition_chunks_cons k hk x xs] at hi ⊢
      match i with
      | 0 =>
        simp only [List.getD_cons_zero]
        rw [List.length_take]
        simp only [List.length_cons] at *
        -- the tail of chunks is nonempty, so more than k elements remain
        have hrest : generate_composition_chunks k ((x :: xs).drop k) ≠ [] := by
          intro hnil
          rw [hnil] at hi
          simp at hi
        have hrest' : (x :: xs).drop k ≠ [] := by
          intro hnil
          rw [hnil, generate_composition_chunks_nil] at hrest
          exact hrest rfl
        have : (x :: xs).length - k ≠ 0 := by
          simpa [List.length_drop] using
            fun h => hrest' (List.eq_nil_of_length_eq_zero (by simp [List.length_drop, h]))
        simp only [List.length_cons] at this
        omega
      | i + 1 =>
        simp only [List.getD_cons_succ]
        simp only [List.length_cons, Nat.add_lt_add_iff_right] at hi
        exact length_of_nonfinal_chunk k hk ((x :: xs).drop k) i hi
termination_by s => s.length
decreasing_by
  simp only [List.length_drop, List.length_cons]
  omega

theorem pyDrop_of_nonneg (k : Int) (hk : 0 ≤ k) (l : List α) :
    pyDrop k l = l.drop k.toNat := by
  rw [pyDrop, if_pos hk]

theorem pyTake_of_nonneg (k : Int) (hk : 0 ≤ k) (l : List α) :
    pyTake k l = l.take k.toNat := by
  rw [pyTake, if_pos hk]

/-- With fuel at least the length of the list, the source loop terminates
for every positive chunk size and produces `generate_composition_chunks`. -/
theorem chunksLoop_eq_generate_composition_chunks (k : Int) (hk : 1 ≤ k) :
    ∀ (fuel : Nat) (s : List α), s.length ≤ fuel →
      chunksLoop k fuel s = some (generate_composition_chunks k.toNat s)
  | fuel, [], _ => by
      rw [generate_composition_chunks_nil]
      cases fuel <;> rfl
  | 0, x :: xs, h => by simp at h
  | fuel + 1, x :: xs, h => by
      have hk0 : 0 ≤ k := by omega
      have hkn : 1 ≤ k.toNat := by omega
      have hlen : ((x :: xs).drop k.toNat).length ≤ fuel := by
        simp only [List.length_drop, List.length_cons] at h ⊢
        omega
      rw [chunksLoop, pyDrop_of_nonneg k hk0, pyTake_of_nonneg k hk0,
        chunksLoop_eq_generate_composition_chunks k hk fuel
          ((x :: xs).drop k.toNat) hlen]
      simp [generate_composition_chunks_cons k.toNat hkn x xs]

theorem pyDrop_nonpos_ne_nil (k : Int) (hk : k ≤ 0) (s : List α)
    (hs : s ≠ []) : pyDrop k s ≠ [] := by
  have hslen : 1 ≤ s.length := List.length_pos.mpr hs
  intro hnil
  have hlen := congrArg List.length hnil
  simp only [List.length_nil] at hlen
  by_cases h0 : 0 ≤ k
  · have hz : k = 0 := le_antisymm hk h0
    rw [pyDrop, if_pos h0, hz] at hlen
    simp only [Int.toNat_zero, List.drop_zero] at hlen
    omega
  · have hm : 1 ≤ (-k).toNat := by omega
    rw [pyDrop, if_neg h0] at hlen
    simp only [List.length_drop] at hlen
    omega

/-- For a nonpositive chunk size and a nonempty input, the source loop
never terminates: no amount of fuel makes it finish. -/
theorem chunksLoop_diverges (k : Int) (hk : k ≤ 0) :
    ∀ (fuel : Nat) (s : List α), s ≠ [] → chunksLoop k fuel s = none
  | 0, _ :: _, _ => rfl
  | fuel + 1, x :: xs, _ => by
      rw [chunksLoop, chunksLoop_diverges k hk fuel (pyDrop k (x :: xs))
        (pyDrop_nonpos_ne_nil k hk (x :: xs) (by simp))]
      rfl
  | _, [], h => absurd rfl h

/-! ## The gateway event model -/

/-- One interaction with the storage gateway, as recorded in a run's
event trace: creation of the empty accumulator, a compose call with its
full ordered input list and outcome, the batch handed to
`delete_objects_concurrent`, a single deletion submitted to the
executor, or a sleep (in milliseconds). -/
inductive GEvent (α : Type) where
  | createEmpty (target : α)
  | composeCall (target : α) (inputs : List α) (ok : Bool)
  | deleteBatch (blobs : List α)
  | deleteSubmit (blob : α)
  | sleepMs (ms : Nat)
  deriving DecidableEq

/-- `delete_objects_concurrent` (`src/single-accumulator.py` lines
68-79): submit each blob's deletion to the executor in order, sleeping
5 ms (`sleep(.005)`) after each submission. -/
def delete_objects_concurrent : List α → List (GEvent α)
  | [] => []
  | b :: rest =>
      GEvent.deleteSubmit b :: GEvent.sleepMs 5 ::
        delete_objects_concurrent rest

/-- Result of a composition loop: the final store, the event trace, and
either success or the 1-based index of the compose call that failed. -/
structure LoopOut (α : Type) where
  store : α → List α
  events : List (GEvent α)
  result : Except Nat Unit

/-- The `for chunk in generate_composition_chunks(slices):` loop of
`compose` (`src/single-accumulator.py` lines 59-63).  `i` is the
1-based index of the next compose call and `store` the current gateway
state.  Each iteration prepends the accumulator to the chunk
(`chunk.insert(0, final_blob)`), issues the compose call — on success
the target's content becomes the concatenation of the inputs' contents
— then hands `chunk[1:]` (the chunk's original slices) to
`delete_objects_concurrent` and sleeps 1 s (`sleep(1)`).  A failing
compose call raises: the loop stops with no further events. -/
def composeLoop [DecidableEq α] (final : α) (fails : Nat → Bool) :
    Nat → (α → List α) → List (List α) → LoopOut α
  | _, store, [] => ⟨store, [], Except.ok ()⟩
  | i, store, chunk :: rest =>
      let inputs := final :: chunk
      if fails i then
        ⟨store, [GEvent.composeCall final inputs false], Except.error i⟩
      else
        let store' := Function.update store final ((inputs.map store).flatten)
        let out := composeLoop final fails (i + 1) store' rest
        ⟨out.store,
          GEvent.composeCall final inputs true ::
            GEvent.deleteBatch (inputs.drop 1) ::
              (delete_objects_concurrent (inputs.drop 1) ++
                GEvent.sleepMs 1000 :: out.events),
          out.result⟩

/-- Result of a whole `compose` run. -/
structure RunOut (α : Type) where
  store : α → List α
  events : List (GEvent α)
  result : Except Nat α

/-- `compose` (`src/single-accumulator.py` lines 38-65): create the
empty accumulator at `object_path` (`upload_from_file(io.BytesIO(b''))`),
then fold every chunk of `slices` into it.  `store0` is the initial
gateway state (each slice's content), `fails` the gateway outcome
oracle for the i-th compose call, and `chunk_size` the chunker's
configuration (the source uses the Python default, 31). -/
def compose [DecidableEq α] (object_path : α) (slices : List α)
    (store0 : α → List α) (fails : Nat → Bool) (chunk_size : Nat) :
    RunOut α :=
  let final_blob := object_path
  let store1 := Function.update store0 final_blob []
  let out := composeLoop final_blob fails 1 store1
      (generate_composition_chunks chunk_size slices)
  ⟨out.store, GEvent.createEmpty final_blob :: out.events,
    out.result.map fun _ => final_blob⟩

/-! ## Trace observers -/

/-- Whether an event is a gateway compose call. -/
def isComposeCall : GEvent α → Bool
  | GEvent.createEmpty _ => false
  | GEvent.composeCall _ _ _ => true
  | GEvent.deleteBatch _ => false
  | GEvent.deleteSubmit _ => false
  | GEvent.sleepMs _ => false

/-- Whether an event belongs to cleanup (a batch handed to the
dispatcher or a deletion submitted to the executor). -/
def isDeleteEvent : GEvent α → Bool
  | GEvent.createEmpty _ => false
  | GEvent.composeCall _ _ _ => false
  | GEvent.deleteBatch _ => true
  | GEvent.deleteSubmit _ => true
  | GEvent.sleepMs _ => false

/-- The batches handed to the cleanup dispatcher, in trace order. -/
def deleteBatches : List (GEvent α) → List (List α)
  | [] => []
  | GEvent.createEmpty _ :: rest => deleteBatches rest
  | GEvent.composeCall _ _ _ :: rest => deleteBatches rest
  | GEvent.deleteBatch bs :: rest => bs :: deleteBatches rest
  | GEvent.deleteSubmit _ :: rest => deleteBatches rest
  | GEvent.sleepMs _ :: rest => deleteBatches rest

/-- Scan a trace, accumulating the inputs of successful compose calls
in `seen`; every deletion submitted must already be in `seen`, i.e.
covered by an earlier successful compose call. -/
def submitsCovered [DecidableEq α] : List α → List (GEvent α) → Bool
  | _, [] => true
  | seen, GEvent.createEmpty _ :: rest => submitsCovered seen rest
  | seen, GEvent.composeCall _ ins ok :: rest =>
      submitsCovered (if ok then seen ++ ins else seen) rest
  | seen, GEvent.deleteBatch _ :: rest => submitsCovered seen rest
  | seen, GEvent.deleteSubmit b :: rest =>
      decide (b ∈ seen) && submitsCovered seen rest
  | seen, GEvent.sleepMs _ :: rest => submitsCovered seen rest

/-- Scan a trace checking that every compose call is preceded by at
least `gap` milliseconds of sleep since the previous compose call;
`acc` is the sleep accumulated so far. -/
def gapsFrom (gap : Nat) : Nat → List (GEvent α) → Bool
  | _, [] => true
  | acc, GEvent.createEmpty _ :: rest => gapsFrom gap acc rest
  | acc, GEvent.composeCall _ _ _ :: rest =>
      decide (gap ≤ acc) && gapsFrom gap 0 rest
  | acc, GEvent.deleteBatch _ :: rest => gapsFrom gap acc rest
  | acc, GEvent.deleteSubmit _ :: rest => gapsFrom gap acc rest
  | acc, GEvent.sleepMs d :: rest => gapsFrom gap (acc + d) rest

/-- No two compose calls in the trace are issued less than `gap`
milliseconds of accumulated sleep apart (the first call is exempt). -/
def minGapOk (gap : Nat) (events : List (GEvent α)) : Bool :=
  gapsFrom gap gap events

/-! ## The `src/list-files.py` variant -/

namespace ListFiles

/-- `generate_composition_chunks` (`src/list-files.py` lines 20-36),
textually identical to the one in `src/single-accumulator.py`, so it is
embedded by the same fuel helper. -/
def generate_composition_chunks (chunk_size : Nat) (slices : List α) :
    List (List α) :=
  genChunksFuel chunk_size slices.length slices

/-- The compose loop of `compose` in `src/list-files.py` lines 63-68:
as in `src/single-accumulator.py` but with the call to
`delete_objects_concurrent` commented out. -/
def composeLoop [DecidableEq α] (final : α) (fails : Nat → Bool) :
    Nat → (α → List α) → List (List α) → LoopOut α
  | _, store, [] => ⟨store, [], Except.ok ()⟩
  | i, store, chunk :: rest =>
      let inputs := final :: chunk
      if fails i then
        ⟨store, [GEvent.composeCall final inputs false], Except.error i⟩
      else
        let store' := Function.update store final ((inputs.map store).flatten)
        let out := composeLoop final fails (i + 1) store' rest
        ⟨out.store,
          GEvent.composeCall final inputs true ::
            GEvent.sleepMs 1000 :: out.events,
          out.result⟩

/-- `compose` (`src/list-files.py` lines 39-70): identical to the
single-accumulator `compose` except that cleanup is commented out (and
no executor is taken). -/
def compose [DecidableEq α] (object_path : α) (slices : List α)
    (store0 : α → List α) (fails : Nat → Bool) (chunk_size : Nat) :
    RunOut α :=
  let final_blob := object_path
  let store1 := Function.update store0 final_blob []
  let out := composeLoop final_blob fails 1 store1
      (ListFiles.generate_composition_chunks chunk_size slices)
  ⟨out.store, GEvent.createEmpty final_blob :: out.events,
    out.result.map fun _ => final_blob⟩

end ListFiles

/-! ## Heap model of Python list objects

Used for the frame property: `compose` mutates the chunk lists it gets
from the generator (`chunk.insert(0, final_blob)`), and those are fresh
copies (`slices[:chunk_size]`), so the caller's list object is never
written. -/

/-- A heap of Python list objects; a reference is an index into
`cells`. -/
structure PyHeap (α : Type) where
  cells : List (List α)

/-- Dereference a list object. -/
def PyHeap.read (h : PyHeap α) (r : Nat) : List α :=
  h.cells.getD r []

/-- Allocate a fresh list object, returning the new heap and the fresh
reference. -/
def PyHeap.alloc (h : PyHeap α) (v : List α) : PyHeap α × Nat :=
  (⟨h.cells ++ [v]⟩, h.cells.length)

/-- Overwrite a list object in place. -/
def PyHeap.write (h : PyHeap α) (r : Nat) (v : List α) : PyHeap α :=
  ⟨h.cells.set r v⟩

/-- The compose loop of `src/single-accumulator.py` lines 59-63 at the
level of Python list objects, modelling only list allocation and
mutation.  `slices` is the generator's current local value (the
rebinding `slices = slices[chunk_size:]` on line 35 never mutates a
list); each chunk `slices[:chunk_size]` (line 33) is a fresh
allocation, and `chunk.insert(0, final_blob)` (line 60) is an in-place
write to that fresh object. -/
def composeHeapLoop (final : α) (chunk_size : Nat) :
    PyHeap α → List α → PyHeap α
  | h, [] => h
  | h, x :: xs =>
      composeHeapLoop final chunk_size
        (((h.alloc ((x :: xs).take chunk_size)).1).write
          (h.alloc ((x :: xs).take chunk_size)).2
          (final ::
            ((h.alloc ((x :: xs).take chunk_size)).1).read
              (h.alloc ((x :: xs).take chunk_size)).2))
        (xs.drop (chunk_size - 1))
termination_by _ l => l.length
decreasing_by
  simp only [List.length_drop, List.length_cons]
  omega

/-- A run of `compose` over the heap: the caller passes a reference to
its slice list; the generator iterates over that list's value. -/
def composeHeap (final : α) (chunk_size : Nat) (h : PyHeap α)
    (slicesRef : Nat) : PyHeap α :=
  composeHeapLoop final chunk_size h (h.read slicesRef)

/-! ## Heap lemmas -/

theorem PyHeap.read_alloc_lt (h : PyHeap α) (v : List α) (r : Nat)
    (hr : r < h.cells.length) : (h.alloc v).1.read r = h.read r := by
  simp [PyHeap.read, PyHeap.alloc, List.getD, List.getElem?_append_left hr]

theorem PyHeap.read_write_ne (h : PyHeap α) (i r : Nat) (v : List α)
    (hne : r ≠ i) : (h.write i v).read r = h.read r := by
  simp [PyHeap.read, PyHeap.write, List.getD,
    List.getElem?_set_ne (Ne.symm hne)]

theorem PyHeap.alloc_write_length (h : PyHeap α) (v w : List α) (i : Nat) :
    ((h.alloc v).1.write i w).cells.length = h.cells.length + 1 := by
  simp [PyHeap.alloc, PyHeap.write]

/-- The compose loop writes only to freshly allocated chunk objects:
every list object that existed before the run is untouched. -/
theorem composeHeapLoop_frame (final : α) (k : Nat) :
    ∀ (l : List α) (h : PyHeap α) (r : Nat), r < h.cells.length →
      (composeHeapLoop final k h l).read r = h.read r
  | [], _, _, _ => by simp [composeHeapLoop]
  | x :: xs, h, r, hr => by
      rw [composeHeapLoop]
      rw [composeHeapLoop_frame final k (xs.drop (k - 1)) _ r
        (by rw [PyHeap.alloc_write_length]; omega)]
      rw [PyHeap.read_write_ne _ _ _ _ (by simp only [PyHeap.alloc]; omega)]
      exact PyHeap.read_alloc_lt h _ r hr
termination_by l => l.length
decreasing_by
  simp only [List.length_drop, List.length_cons]
  omega

/-! ## Cleanup dispatcher trace lemmas -/

theorem mem_delete_objects_concurrent (c : List α) (e : GEvent α)
    (he : e ∈ delete_objects_concurrent c) :
    (∃ b ∈ c, e = GEvent.deleteSubmit b) ∨ e = GEvent.sleepMs 5 := by
  induction c with
  | nil => simp [delete_objects_concurrent] at he
  | cons b rest ih =>
      simp only [delete_objects_concurrent, List.mem_cons] at he
      rcases he with rfl | rfl | he
      · exact Or.inl ⟨b, List.mem_cons_self b rest, rfl⟩
      · exact Or.inr rfl
      · rcases ih he with ⟨b', hb', he'⟩ | he'
        · exact Or.inl ⟨b', List.mem_cons_of_mem b hb', he'⟩
        · exact Or.inr he'

theorem filter_isComposeCall_delete_objects_concurrent (c : List α) :
    (delete_objects_concurrent c).filter isComposeCall = [] := by
  induction c with
  | nil => rfl
  | cons b rest ih =>
      simp [delete_objects_concurrent, List.filter_cons, isComposeCall, ih]

theorem deleteBatches_append (l1 l2 : List (GEvent α)) :
    deleteBatches (l1 ++ l2) = deleteBatches l1 ++ deleteBatches l2 := by
  induction l1 with
  | nil => rfl
  | cons e rest ih => cases e <;> simp [deleteBatches, ih]

theorem deleteBatches_delete_objects_concurrent (c : List α) :
    deleteBatches (delete_objects_concurrent c) = [] := by
  induction c with
  | nil => rfl
  | cons b rest ih => simp [delete_objects_concurrent, deleteBatches, ih]

theorem gapsFrom_delete_objects_concurrent (g a : Nat) (c : List α)
    (tail : List (GEvent α)) :
    gapsFrom g a (delete_objects_concurrent c ++ tail) =
      gapsFrom g (a + 5 * c.length) tail := by
  induction c generalizing a with
  | nil => simp [delete_objects_concurrent]
  | cons b rest ih =>
      have h5 : a + 5 + 5 * rest.length = a + 5 * (rest.length + 1) := by ring
      simp only [delete_objects_concurrent, List.cons_append, gapsFrom,
        List.append_eq]
      rw [ih (a + 5), h5, List.length_cons]

theorem submitsCovered_delete_objects_concurrent [DecidableEq α]
    (seen : List α) (c : List α) (tail : List (GEvent α))
    (hc : ∀ b ∈ c, b ∈ seen) :
    submitsCovered seen (delete_objects_concurrent c ++ tail) =
      submitsCovered seen tail := by
  induction c with
  | nil => simp [delete_objects_concurrent]
  | cons b rest ih =>
      have hb : b ∈ seen := hc b (List.mem_cons_self b rest)
      simp only [delete_objects_concurrent, List.cons_append, submitsCovered,
        List.append_eq]
      rw [ih (fun b' hb' => hc b' (List.mem_cons_of_mem b hb'))]
      simp [hb]

/-! ## Compose loop unfolding equations -/

/-- The store after a successful compose call on `[final] + chunk`: the
accumulator's content becomes the concatenation of the inputs'
contents. -/
def storeAfter [DecidableEq α] (final : α) (st : α → List α)
    (chunk : List α) : α → List α :=
  Function.update st final (((final :: chunk).map st).flatten)

theorem composeLoop_store_nil [DecidableEq α] (final : α)
    (fails : Nat → Bool) (i : Nat) (st : α → List α) :
    (composeLoop final fails i st []).store = st := by
  simp [composeLoop]

theorem composeLoop_events_nil [DecidableEq α] (final : α)
    (fails : Nat → Bool) (i : Nat) (st : α → List α) :
    (composeLoop final fails i st []).events = [] := by
  simp [composeLoop]

theorem composeLoop_result_nil [DecidableEq α] (final : α)
    (fails : Nat → Bool) (i : Nat) (st : α → List α) :
    (composeLoop final fails i st []).result = Except.ok () := by
  simp [composeLoop]

theorem composeLoop_store_consFail [DecidableEq α] (final : α)
    (fails : Nat → Bool) (i : Nat) (st : α → List α) (chunk : List α)
    (rest : List (List α)) (hf : fails i = true) :
    (composeLoop final fails i st (chunk :: rest)).store = st := by
  simp [composeLoop, hf]

theorem composeLoop_events_consFail [DecidableEq α] (final : α)
    (fails : Nat → Bool) (i : Nat) (st : α → List α) (chunk : List α)
    (rest : List (List α)) (hf : fails i = true) :
    (composeLoop final fails i st (chunk :: rest)).events =
      [GEvent.composeCall final (final :: chunk) false] := by
  simp [composeLoop, hf]

theorem composeLoop_result_consFail [DecidableEq α] (final : α)
    (fails : Nat → Bool) (i : Nat) (st : α → List α) (chunk : List α)
    (rest : List (List α)) (hf : fails i = true) :
    (composeLoop final fails i st (chunk :: rest)).result =
      Except.error i := by
  simp [composeLoop, hf]

theorem composeLoop_store_consOk [DecidableEq α] (final : α)
    (fails : Nat → Bool) (i : Nat) (st : α → List α) (chunk : List α)
    (rest : List (List α)) (hf : fails i = false) :
    (composeLoop final fails i st (chunk :: rest)).store =
      (composeLoop final fails (i + 1)
        (storeAfter final st chunk) rest).store := by
  simp [composeLoop, storeAfter, hf]

theorem composeLoop_events_consOk [DecidableEq α] (final : α)
    (fails : Nat → Bool) (i : Nat) (st : α → List α) (chunk : List α)
    (rest : List (List α)) (hf : fails i = false) :
    (composeLoop final fails i st (chunk :: rest)).events =
      GEvent.composeCall final (final :: chunk) true ::
        GEvent.deleteBatch chunk ::
          (delete_objects_concurrent chunk ++
            GEvent.sleepMs 1000 ::
              (composeLoop final fails (i + 1)
                (storeAfter final st chunk) rest).events) := by
  simp [composeLoop, storeAfter, hf]

theorem composeLoop_result_consOk [DecidableEq α] (final : α)
    (fails : Nat → Bool) (i : Nat) (st : α → List α) (chunk : List α)
    (rest : List (List α)) (hf : fails i = false) :
    (composeLoop final fails i st (chunk :: rest)).result =
      (composeLoop final fails (i + 1)
        (storeAfter final st chunk) rest).result := by
  simp [composeLoop, storeAfter, hf]

/-! ## Compose loop lemmas -/

/-- Only the accumulator's content is ever written by the loop. -/
theorem composeLoop_store_ne [DecidableEq α] (final : α) (fails : Nat → Bool)
    (b : α) (hb : b ≠ final) :
    ∀ (i : Nat) (st : α → List α) (chunks : List (List α)),
      (composeLoop final fails i st chunks).store b = st b
  | i, st, [] => by rw [composeLoop_store_nil]
  | i, st, chunk :: rest => by
      cases hfe : fails i with
      | true => rw [composeLoop_store_consFail final fails i st chunk rest hfe]
      | false =>
          rw [composeLoop_store_consOk final fails i st chunk rest hfe,
            composeLoop_store_ne final fails b hb (i + 1) _ rest]
          exact Function.update_noteq hb _ st

theorem composeLoop_result_allOk [DecidableEq α] (final : α)
    (fails : Nat → Bool) (hf : ∀ j, fails j = false) :
    ∀ (i : Nat) (st : α → List α) (chunks : List (List α)),
      (composeLoop final fails i st chunks).result = Except.ok ()
  | i, st, [] => composeLoop_result_nil final fails i st
  | i, st, chunk :: rest => by
      rw [composeLoop_result_consOk final fails i st chunk rest (hf i)]
      exact composeLoop_result_allOk final fails hf (i + 1) _ rest

theorem composeLoop_count_allOk [DecidableEq α] (final : α)
    (fails : Nat → Bool) (hf : ∀ j, fails j = false) :
    ∀ (i : Nat) (st : α → List α) (chunks : List (List α)),
      ((composeLoop final fails i st chunks).events.filter
        isComposeCall).length = chunks.length
  | i, st, [] => by rw [composeLoop_events_nil]; rfl
  | i, st, chunk :: rest => by
      rw [composeLoop_events_consOk final fails i st chunk rest (hf i)]
      simp only [List.filter_cons, List.filter_append,
        filter_isComposeCall_delete_objects_concurrent, isComposeCall,
        List.nil_append, if_true, Bool.false_eq_true, if_false,
        List.length_cons]
      rw [composeLoop_count_allOk final fails hf (i + 1)
        (storeAfter final st chunk) rest]

theorem composeLoop_batches_allOk [DecidableEq α] (final : α)
    (fails : Nat → Bool) (hf : ∀ j, fails j = false) :
    ∀ (i : Nat) (st : α → List α) (chunks : List (List α)),
      deleteBatches (composeLoop final fails i st chunks).events = chunks
  | i, st, [] => by rw [composeLoop_events_nil]; rfl
  | i, st, chunk :: rest => by
      rw [composeLoop_events_consOk final fails i st chunk rest (hf i)]
      simp only [deleteBatches, deleteBatches_append,
        deleteBatches_delete_objects_concurrent, List.nil_append]
      rw [composeLoop_batches_allOk final fails hf (i + 1)
        (storeAfter final st chunk) rest]

theorem composeLoop_storeFinal_allOk [DecidableEq α] (final : α)
    (fails : Nat → Bool) (hf : ∀ j, fails j = false) :
    ∀ (i : Nat) (st : α → List α) (chunks : List (List α)),
      (∀ c ∈ chunks, final ∉ c) →
      (composeLoop final fails i st chunks).store final =
        st final ++ (chunks.flatten.map st).flatten
  | i, st, [], _ => by
      rw [composeLoop_store_nil]
      simp
  | i, st, chunk :: rest, hnotin => by
      rw [composeLoop_store_consOk final fails i st chunk rest (hf i),
        composeLoop_storeFinal_allOk final fails hf (i + 1)
          (storeAfter final st chunk) rest
          (fun c hc => hnotin c (List.mem_cons_of_mem _ hc))]
      have h1 : storeAfter final st chunk final =
          st final ++ (chunk.map st).flatten := by
        simp [storeAfter, Function.update_same]
      have h2 : rest.flatten.map (storeAfter final st chunk) =
          rest.flatten.map st := by
        apply List.map_congr_left
        intro x hx
        have hxs : x ≠ final := by
          rcases List.mem_flatten.mp hx with ⟨c, hc, hxc⟩
          intro hfx
          exact hnotin c (List.mem_cons_of_mem _ hc) (hfx ▸ hxc)
        simp [storeAfter, Function.update_noteq hxs]
      rw [h1, h2]
      simp [List.flatten_cons, List.map_append, List.flatten_append,
        List.append_assoc]

theorem composeLoop_result_firstFail [DecidableEq α] (final : α)
    (fails : Nat → Bool) :
    ∀ (i p : Nat) (st : α → List α) (chunks : List (List α)),
      p < chunks.length → fails (i + p) = true →
      (∀ j, i ≤ j → j < i + p → fails j = false) →
      (composeLoop final fails i st chunks).result = Except.error (i + p)
  | i, p, st, [], hlen, _, _ => absurd hlen (by simp)
  | i, 0, st, chunk :: rest, _, hfp, _ => by
      rw [composeLoop_result_consFail final fails i st chunk rest
        (by simpa using hfp)]
      rfl
  | i, p + 1, st, chunk :: rest, hlen, hfp, hbelow => by
      have hfi : fails i = false := hbelow i le_rfl (by omega)
      rw [composeLoop_result_consOk final fails i st chunk rest hfi]
      have hrec := composeLoop_result_firstFail final fails (i + 1) p
        (storeAfter final st chunk) rest (by simpa using hlen)
        (by rw [show i + 1 + p = i + (p + 1) by omega]; exact hfp)
        (fun j hj1 hj2 => hbelow j (by omega) (by omega))
      rw [hrec, show i + 1 + p = i + (p + 1) by omega]

theorem composeLoop_count_firstFail [DecidableEq α] (final : α)
    (fails : Nat → Bool) :
    ∀ (i p : Nat) (st : α → List α) (chunks : List (List α)),
      p < chunks.length → fails (i + p) = true →
      (∀ j, i ≤ j → j < i + p → fails j = false) →
      ((composeLoop final fails i st chunks).events.filter
        isComposeCall).length = p + 1
  | i, p, st, [], hlen, _, _ => absurd hlen (by simp)
  | i, 0, st, chunk :: rest, _, hfp, _ => by
      rw [composeLoop_events_consFail final fails i st chunk rest
        (by simpa using hfp)]
      rfl
  | i, p + 1, st, chunk :: rest, hlen, hfp, hbelow => by
      have hfi : fails i = false := hbelow i le_rfl (by omega)
      rw [composeLoop_events_consOk final fails i st chunk rest hfi]
      simp only [List.filter_cons, List.filter_append,
        filter_isComposeCall_delete_objects_concurrent, isComposeCall,
        List.nil_append, if_true, Bool.false_eq_true, if_false,
        List.length_cons]
      rw [composeLoop_count_firstFail final fails (i + 1) p
        (storeAfter final st chunk) rest (by simpa using hlen)
        (by rw [show i + 1 + p = i + (p + 1) by omega]; exact hfp)
        (fun j hj1 hj2 => hbelow j (by omega) (by omega))]

theorem composeLoop_batches_firstFail [DecidableEq α] (final : α)
    (fails : Nat → Bool) :
    ∀ (i p : Nat) (st : α → List α) (chunks : List (List α)),
      p < chunks.length → fails (i + p) = true →
      (∀ j, i ≤ j → j < i + p → fails j = false) →
      deleteBatches (composeLoop final fails i st chunks).events =
        chunks.take p
  | i, p, st, [], hlen, _, _ => absurd hlen (by simp)
  | i, 0, st, chunk :: rest, _, hfp, _ => by
      rw [composeLoop_events_consFail final fails i st chunk rest
        (by simpa using hfp)]
      rfl
  | i, p + 1, st, chunk :: rest, hlen, hfp, hbelow => by
      have hfi : fails i = false := hbelow i le_rfl (by omega)
      rw [composeLoop_events_consOk final fails i st chunk rest hfi]
      simp only [deleteBatches, deleteBatches_append,
        deleteBatches_delete_objects_concurrent, List.nil_append,
        List.take_succ_cons]
      rw [composeLoop_batches_firstFail final fails (i + 1) p
        (storeAfter final st chunk) rest (by simpa using hlen)
        (by rw [show i + 1 + p = i + (p + 1) by omega]; exact hfp)
        (fun j hj1 hj2 => hbelow j (by omega) (by omega))]

theorem composeLoop_storeFinal_firstFail [DecidableEq α] (final : α)
    (fails : Nat → Bool) :
    ∀ (i p : Nat) (st : α → List α) (chunks : List (List α)),
      (∀ c ∈ chunks, final ∉ c) →
      p < chunks.length → fails (i + p) = true →
      (∀ j, i ≤ j → j < i + p → fails j = false) →
      (composeLoop final fails i st chunks).store final =
        st final ++ ((chunks.take p).flatten.map st).flatten
  | i, p, st, [], _, hlen, _, _ => absurd hlen (by simp)
  | i, 0, st, chunk :: rest, _, _, hfp, _ => by
      rw [composeLoop_store_consFail final fails i st chunk rest
        (by simpa using hfp)]
      simp
  | i, p + 1, st, chunk :: rest, hnotin, hlen, hfp, hbelow => by
      have hfi : fails i = false := hbelow i le_rfl (by omega)
      rw [composeLoop_store_consOk final fails i st chunk rest hfi,
        composeLoop_storeFinal_firstFail final fails (i + 1) p
          (storeAfter final st chunk) rest
          (fun c hc => hnotin c (List.mem_cons_of_mem _ hc))
          (by simpa using hlen)
          (by rw [show i + 1 + p = i + (p + 1) by omega]; exact hfp)
          (fun j hj1 hj2 => hbelow j (by omega) (by omega))]
      have h1 : storeAfter final st chunk final =
          st final ++ (chunk.map st).flatten := by
        simp [storeAfter, Function.update_same]
      have h2 : (rest.take p).flatten.map (storeAfter final st chunk) =
          (rest.take p).flatten.map st := by
        apply List.map_congr_left
        intro x hx
        have hxs : x ≠ final := by
          rcases List.mem_flatten.mp hx with ⟨c, hc, hxc⟩
          intro hfx
          exact hnotin c
            (List.mem_cons_of_mem _ (List.take_subset p rest hc))
            (hfx ▸ hxc)
        simp [storeAfter, Function.update_noteq hxs]
      rw [h1, h2, List.take_succ_cons]
      simp [List.flatten_cons, List.map_append, List.flatten_append,
        List.append_assoc]

/-- Every compose call in the loop's trace targets the accumulator and
takes as inputs the accumulator followed by one of the chunks. -/
theorem composeCall_mem_composeLoop [DecidableEq α] (final : α)
    (fails : Nat → Bool) :
    ∀ (i : Nat) (st : α → List α) (chunks : List (List α))
      (tgt : α) (ins : List α) (ok : Bool),
      GEvent.composeCall tgt ins ok ∈
        (composeLoop final fails i st chunks).events →
      tgt = final ∧ ∃ c ∈ chunks, ins = final :: c
  | i, st, [], tgt, ins, ok, hmem => by
      rw [composeLoop_events_nil] at hmem
      simp at hmem
  | i, st, chunk :: rest, tgt, ins, ok, hmem => by
      cases hfe : fails i with
      | true =>
          rw [composeLoop_events_consFail final fails i st chunk rest hfe]
            at hmem
          simp only [List.mem_singleton, GEvent.composeCall.injEq] at hmem
          exact ⟨hmem.1, chunk, List.mem_cons_self _ _, hmem.2.1⟩
      | false =>
          rw [composeLoop_events_consOk final fails i st chunk rest hfe]
            at hmem
          simp only [List.mem_cons, List.mem_append] at hmem
          rcases hmem with h | h | h | h | h
          · simp only [GEvent.composeCall.injEq] at h
            exact ⟨h.1, chunk, List.mem_cons_self _ _, h.2.1⟩
          · simp at h
          · rcases mem_delete_objects_concurrent chunk _ h with
              ⟨b, _, heq⟩ | heq <;> simp at heq
          · simp at h
          · have := composeCall_mem_composeLoop final fails (i + 1)
              (storeAfter final st chunk) rest tgt ins ok h
            exact ⟨this.1, by
              rcases this.2 with ⟨c, hc, heq⟩
              exact ⟨c, List.mem_cons_of_mem _ hc, heq⟩⟩

/-- Every cleanup batch in the loop's trace is exactly one of the
chunks. -/
theorem deleteBatch_mem_composeLoop [DecidableEq α] (final : α)
    (fails : Nat → Bool) :
    ∀ (i : Nat) (st : α → List α) (chunks : List (List α)) (bs : List α),
      GEvent.deleteBatch bs ∈ (composeLoop final fails i st chunks).events →
      bs ∈ chunks
  | i, st, [], bs, hmem => by
      rw [composeLoop_events_nil] at hmem
      simp at hmem
  | i, st, chunk :: rest, bs, hmem => by
      cases hfe : fails i with
      | true =>
          rw [composeLoop_events_consFail final fails i st chunk rest hfe]
            at hmem
          simp at hmem
      | false =>
          rw [composeLoop_events_consOk final fails i st chunk rest hfe]
            at hmem
          simp only [List.mem_cons, List.mem_append] at hmem
          rcases hmem with h | h | h | h | h
          · simp at h
          · simp only [GEvent.deleteBatch.injEq] at h
            exact h ▸ List.mem_cons_self _ _
          · rcases mem_delete_objects_concurrent chunk _ h with
              ⟨b, _, heq⟩ | heq <;> simp at heq
          · simp at h
          · exact List.mem_cons_of_mem _
              (deleteBatch_mem_composeLoop final fails (i + 1)
                (storeAfter final st chunk) rest bs h)

/-- Every deletion submitted in the loop's trace is a member of one of
the chunks. -/
theorem deleteSubmit_mem_composeLoop [DecidableEq α] (final : α)
    (fails : Nat → Bool) :
    ∀ (i : Nat) (st : α → List α) (chunks : List (List α)) (b : α),
      GEvent.deleteSubmit b ∈ (composeLoop final fails i st chunks).events →
      ∃ c ∈ chunks, b ∈ c
  | i, st, [], b, hmem => by
      rw [composeLoop_events_nil] at hmem
      simp at hmem
  | i, st, chunk :: rest, b, hmem => by
      cases hfe : fails i with
      | true =>
          rw [composeLoop_events_consFail final fails i st chunk rest hfe]
            at hmem
          simp at hmem
      | false =>
          rw [composeLoop_events_consOk final fails i st chunk rest hfe]
            at hmem
          simp only [List.mem_cons, List.mem_append] at hmem
          rcases hmem with h | h | h | h | h
          · simp at h
          · simp at h
          · rcases mem_delete_objects_concurrent chunk _ h with
              ⟨b', hb', heq⟩ | heq
            · simp only [GEvent.deleteSubmit.injEq] at heq
              exact ⟨chunk, List.mem_cons_self _ _, heq ▸ hb'⟩
            · simp at heq
          · simp at h
          · rcases deleteSubmit_mem_composeLoop final fails (i + 1)
              (storeAfter final st chunk) rest b h with ⟨c, hc, hb⟩
            exact ⟨c, List.mem_cons_of_mem _ hc, hb⟩

/-- In every run (failing or not), each deletion submitted to the
executor is covered by an earlier successful compose call whose inputs
contain the deleted blob. -/
theorem submitsCovered_composeLoop [DecidableEq α] (final : α)
    (fails : Nat → Bool) :
    ∀ (i : Nat) (st : α → List α) (chunks : List (List α)) (seen : List α),
      submitsCovered seen (composeLoop final fails i st chunks).events = true
  | i, st, [], seen => by rw [composeLoop_events_nil]; rfl
  | i, st, chunk :: rest, seen => by
      cases hfe : fails i with
      | true =>
          rw [composeLoop_events_consFail final fails i st chunk rest hfe]
          simp [submitsCovered]
      | false =>
          rw [composeLoop_events_consOk final fails i st chunk rest hfe]
          simp only [submitsCovered, if_true]
          rw [submitsCovered_delete_objects_concurrent
            (seen ++ (final :: chunk)) chunk _
            (fun b hb => by simp [hb])]
          simp only [submitsCovered]
          exact submitsCovered_composeLoop final fails (i + 1)
            (storeAfter final st chunk) rest _

/-- In every run, at least 1000 ms of sleep separates consecutive
compose calls in the loop's trace. -/
theorem gapsFrom_composeLoop [DecidableEq α] (final : α)
    (fails : Nat → Bool) :
    ∀ (i : Nat) (st : α → List α) (chunks : List (List α)) (a : Nat),
      1000 ≤ a →
      gapsFrom 1000 a (composeLoop final fails i st chunks).events = true
  | i, st, [], a, ha => by rw [composeLoop_events_nil]; rfl
  | i, st, chunk :: rest, a, ha => by
      cases hfe : fails i with
      | true =>
          rw [composeLoop_events_consFail final fails i st chunk rest hfe]
          simp [gapsFrom, ha]
      | false =>
          rw [composeLoop_events_consOk final fails i st chunk rest hfe]
          simp only [gapsFrom]
          rw [gapsFrom_delete_objects_concurrent]
          simp only [gapsFrom]
          have hrec := gapsFrom_composeLoop final fails (i + 1)
            (storeAfter final st chunk) rest (0 + 5 * chunk.length + 1000)
            (by omega)
          rw [hrec]
          simp [ha]

/-! ## Equivalence with the `src/list-files.py` variant -/

theorem listFiles_generate_eq (k : Nat) (s : List α) :
    ListFiles.generate_composition_chunks k s =
      generate_composition_chunks k s := rfl

theorem listFiles_composeLoop_store_nil [DecidableEq α] (final : α)
    (fails : Nat → Bool) (i : Nat) (st : α → List α) :
    (ListFiles.composeLoop final fails i st []).store = st := by
  simp [ListFiles.composeLoop]

theorem listFiles_composeLoop_events_nil [DecidableEq α] (final : α)
    (fails : Nat → Bool) (i : Nat) (st : α → List α) :
    (ListFiles.composeLoop final fails i st []).events = [] := by
  simp [ListFiles.composeLoop]

theorem listFiles_composeLoop_result_nil [DecidableEq α] (final : α)
    (fails : Nat → Bool) (i : Nat) (st : α → List α) :
    (ListFiles.composeLoop final fails i st []).result = Except.ok () := by
  simp [ListFiles.composeLoop]

theorem listFiles_composeLoop_store_consFail [DecidableEq α] (final : α)
    (fails : Nat → Bool) (i : Nat) (st : α → List α) (chunk : List α)
    (rest : List (List α)) (hf : fails i = true) :
    (ListFiles.composeLoop final fails i st (chunk :: rest)).store = st := by
  simp [ListFiles.composeLoop, hf]

theorem listFiles_composeLoop_events_consFail [DecidableEq α] (final : α)
    (fails : Nat → Bool) (i : Nat) (st : α → List α) (chunk : List α)
    (rest : List (List α)) (hf : fails i = true) :
    (ListFiles.composeLoop final fails i st (chunk :: rest)).events =
      [GEvent.composeCall final (final :: chunk) false] := by
  simp [ListFiles.composeLoop, hf]

theorem listFiles_composeLoop_result_consFail [DecidableEq α] (final : α)
    (fails : Nat → Bool) (i : Nat) (st : α → List α) (chunk : List α)
    (rest : List (List α)) (hf : fails i = true) :
    (ListFiles.composeLoop final fails i st (chunk :: rest)).result =
      Except.error i := by
  simp [ListFiles.composeLoop, hf]

theorem listFiles_composeLoop_store_consOk [DecidableEq α] (final : α)
    (fails : Nat → Bool) (i : Nat) (st : α → List α) (chunk : List α)
    (rest : List (List α)) (hf : fails i = false) :
    (ListFiles.composeLoop final fails i st (chunk :: rest)).store =
      (ListFiles.composeLoop final fails (i + 1)
        (storeAfter final st chunk) rest).store := by
  simp [ListFiles.composeLoop, storeAfter, hf]

theorem listFiles_composeLoop_events_consOk [DecidableEq α] (final : α)
    (fails : Nat → Bool) (i : Nat) (st : α → List α) (chunk : List α)
    (rest : List (List α)) (hf : fails i = false) :
    (ListFiles.composeLoop final fails i st (chunk :: rest)).events =
      GEvent.composeCall final (final :: chunk) true ::
        GEvent.sleepMs 1000 ::
          (ListFiles.composeLoop final fails (i + 1)
            (storeAfter final st chunk) rest).events := by
  simp [ListFiles.composeLoop, storeAfter, hf]

theorem listFiles_composeLoop_result_consOk [DecidableEq α] (final : α)
    (fails : Nat → Bool) (i : Nat) (st : α → List α) (chunk : List α)
    (rest : List (List α)) (hf : fails i = false) :
    (ListFiles.composeLoop final fails i st (chunk :: rest)).result =
      (ListFiles.composeLoop final fails (i + 1)
        (storeAfter final st chunk) rest).result := by
  simp [ListFiles.composeLoop, storeAfter, hf]

/-- The two compose loops agree on the store, the result and the
ordered sequence of compose calls; the `list-files.py` loop issues no
cleanup events. -/
theorem composeLoop_equiv_listFiles [DecidableEq α] (final : α)
    (fails : Nat → Bool) :
    ∀ (i : Nat) (st : α → List α) (chunks : List (List α)),
      (ListFiles.composeLoop final fails i st chunks).store =
        (composeLoop final fails i st chunks).store ∧
      (ListFiles.composeLoop final fails i st chunks).result =
        (composeLoop final fails i st chunks).result ∧
      (ListFiles.composeLoop final fails i st chunks).events.filter
          isComposeCall =
        (composeLoop final fails i st chunks).events.filter isComposeCall ∧
      (∀ e ∈ (ListFiles.composeLoop final fails i st chunks).events,
        isDeleteEvent e = false)
  | i, st, [] => by
      rw [listFiles_composeLoop_store_nil, listFiles_composeLoop_events_nil,
        listFiles_composeLoop_result_nil, composeLoop_store_nil,
        composeLoop_events_nil, composeLoop_result_nil]
      simp
  | i, st, chunk :: rest => by
      cases hfe : fails i with
      | true =>
          rw [listFiles_composeLoop_store_consFail final fails i st chunk rest hfe,
            listFiles_composeLoop_events_consFail final fails i st chunk rest hfe,
            listFiles_composeLoop_result_consFail final fails i st chunk rest hfe,
            composeLoop_store_consFail final fails i st chunk rest hfe,
            composeLoop_events_consFail final fails i st chunk rest hfe,
            composeLoop_result_consFail final fails i st chunk rest hfe]
          refine ⟨rfl, rfl, rfl, ?_⟩
          intro e he
          simp only [List.mem_singleton] at he
          subst he
          rfl
      | false =>
          obtain ⟨hst, hres, hcc, hdel⟩ := composeLoop_equiv_listFiles
            final fails (i + 1) (storeAfter final st chunk) rest
          rw [listFiles_composeLoop_store_consOk final fails i st chunk rest hfe,
            listFiles_composeLoop_events_consOk final fails i st chunk rest hfe,
            listFiles_composeLoop_result_consOk final fails i st chunk rest hfe,
            composeLoop_store_consOk final fails i st chunk rest hfe,
            composeLoop_events_consOk final fails i st chunk rest hfe,
            composeLoop_result_consOk final fails i st chunk rest hfe]
          refine ⟨hst, hres, ?_, ?_⟩
          · simp only [List.filter_cons, List.filter_append,
              filter_isComposeCall_delete_objects_concurrent, isComposeCall,
              List.nil_append, if_true, Bool.false_eq_true, if_false]
            rw [hcc]
          · intro e he
            simp only [List.mem_cons] at he
            rcases he with rfl | rfl | he
            · rfl
            · rfl
            · exact hdel e he

/-! ## Compose-level equations -/

theorem compose_store [DecidableEq α] (path : α) (slices : List α)
    (store0 : α → List α) (fails : Nat → Bool) (k : Nat) :
    (compose path slices store0 fails k).store =
      (composeLoop path fails 1 (Function.update store0 path [])
        (generate_composition_chunks k slices)).store := rfl

theorem compose_events [DecidableEq α] (path : α) (slices : List α)
    (store0 : α → List α) (fails : Nat → Bool) (k : Nat) :
    (compose path slices store0 fails k).events =
      GEvent.createEmpty path ::
        (composeLoop path fails 1 (Function.update store0 path [])
          (generate_composition_chunks k slices)).events := rfl

theorem compose_result [DecidableEq α] (path : α) (slices : List α)
    (store0 : α → List α) (fails : Nat → Bool) (k : Nat) :
    (compose path slices store0 fails k).result =
      (composeLoop path fails 1 (Function.update store0 path [])
        (generate_composition_chunks k slices)).result.map
          fun _ => path := rfl

theorem listFiles_compose_store [DecidableEq α] (path : α) (slices : List α)
    (store0 : α → List α) (fails : Nat → Bool) (k : Nat) :
    (ListFiles.compose path slices store0 fails k).store =
      (ListFiles.composeLoop path fails 1 (Function.update store0 path [])
        (generate_composition_chunks k slices)).store := rfl

theorem listFiles_compose_events [DecidableEq α] (path : α)
    (slices : List α) (store0 : α → List α) (fails : Nat → Bool) (k : Nat) :
    (ListFiles.compose path slices store0 fails k).events =
      GEvent.createEmpty path ::
        (ListFiles.composeLoop path fails 1 (Function.update store0 path [])
          (generate_composition_chunks k slices)).events := rfl

theorem listFiles_compose_result [DecidableEq α] (path : α)
    (slices : List α) (store0 : α → List α) (fails : Nat → Bool) (k : Nat) :
    (ListFiles.compose path slices store0 fails k).result =
      (ListFiles.composeLoop path fails 1 (Function.update store0 path [])
        (generate_composition_chunks k slices)).result.map
          fun _ => path := rfl

/-- An element of a chunk is an element of the input list. -/
theorem mem_chunk_mem (k : Nat) (s : List α) (c : List α)
    (hc : c ∈ generate_composition_chunks k s) (x : α) (hx : x ∈ c) :
    x ∈ s := by
  rw [← flatten_generate_composition_chunks k s]
  exact List.mem_flatten.mpr ⟨c, hc, hx⟩

/-! ## The claims -/

/-- C1: For every slice list of length `N` and every chunk size `K ≥ 1`,
`generate_composition_chunks` yields exactly `⌈N/K⌉` chunks, each of
length at most `K` and all but the final one of length exactly `K`;
`compose` therefore issues exactly `⌈N/K⌉` gateway compose calls; for
`N = 0` it issues no compose call but still creates the empty
accumulator at the destination path and returns it. -/
theorem C1_chunk_count_and_calls [DecidableEq α] (k : Nat) (hk : 1 ≤ k)
    (slices : List α) (final : α) (store0 : α → List α) :
    (generate_composition_chunks k slices).length =
      (slices.length + k - 1) / k ∧
    (∀ c ∈ generate_composition_chunks k slices, c.length ≤ k) ∧
    (∀ i : Nat, i + 1 < (generate_composition_chunks k slices).length →
      ((generate_composition_chunks k slices).getD i []).length = k) ∧
    ((compose final slices store0 (fun _ => false) k).events.filter
        isComposeCall).length = (slices.length + k - 1) / k ∧
    (slices = [] →
      (compose final slices store0 (fun _ => false) k).events =
        [GEvent.createEmpty final] ∧
      (compose final slices store0 (fun _ => false) k).result =
        Except.ok final ∧
      (compose final slices store0 (fun _ => false) k).store final = []) := by
  refine ⟨length_generate_composition_chunks k hk slices,
    fun c hc => (mem_generate_composition_chunks k hk slices c hc).2,
    length_of_nonfinal_chunk k hk slices, ?_, ?_⟩
  · rw [compose_events]
    simp only [List.filter_cons, isComposeCall, Bool.false_eq_true, if_false]
    rw [composeLoop_count_allOk final (fun _ => false) (fun _ => rfl) 1 _ _,
      length_generate_composition_chunks k hk slices]
  · intro hnil
    subst hnil
    refine ⟨?_, ?_, ?_⟩
    · rw [compose_events, generate_composition_chunks_nil,
        composeLoop_events_nil]
    · rw [compose_result, generate_composition_chunks_nil,
        composeLoop_result_nil]
      rfl
    · rw [compose_store, generate_composition_chunks_nil,
        composeLoop_store_nil]
      exact Function.update_same final [] store0

/-- Witness for C1 at the spec's example `K = 31`, `N = 100`: four
chunks of sizes 31, 31, 31, 7 and four compose calls. -/
theorem C1_witness :
    (generate_composition_chunks 31 (List.range 100)).map List.length =
      [31, 31, 31, 7] ∧
    ((compose 100 (List.range 100) (fun _ => []) (fun _ => false)
        31).events.filter isComposeCall).length = (100 + 31 - 1) / 31 := by
  refine ⟨by decide, ?_⟩
  have h := C1_chunk_count_and_calls 31 (by norm_num) (List.range 100)
    (100 : Nat) (fun _ => [])
  simpa using h.2.2.2.1

/-- C2: For every chunk size `K ≥ 1` the chunks concatenate back to the
input list in order, and — with each gateway compose call replacing the
target's content by the concatenation of its inputs' contents — the
accumulator's final content is the concatenation of all slices'
contents in exactly the input order, regardless of `K`. -/
theorem C2_order_preserved [DecidableEq α] (k : Nat) (hk : 1 ≤ k)
    (slices : List α) (final : α) (store0 : α → List α)
    (hfin : final ∉ slices) :
    (generate_composition_chunks k slices).flatten = slices ∧
    (compose final slices store0 (fun _ => false) k).store final =
      (slices.map store0).flatten := by
  refine ⟨flatten_generate_composition_chunks k slices, ?_⟩
  rw [compose_store,
    composeLoop_storeFinal_allOk final (fun _ => false) (fun _ => rfl) 1 _
      (generate_composition_chunks k slices)
      (fun c hc hmem => hfin (mem_chunk_mem k slices c hc final hmem)),
    Function.update_same, flatten_generate_composition_chunks k slices,
    List.nil_append]
  congr 1
  apply List.map_congr_left
  intro x hx
  have hxf : x ≠ final := fun h => hfin (h ▸ hx)
  exact Function.update_noteq hxf _ store0

/-- Witness for C2 with three slices and chunk size 2: the accumulator
ends up holding the slices' contents in input order. -/
theorem C2_witness :
    (generate_composition_chunks 2 [10, 11, 12]).flatten = [10, 11, 12] ∧
    (compose 0 [10, 11, 12] (fun s => [s]) (fun _ => false) 2).store 0 =
      [10, 11, 12] := by
  have h := C2_order_preserved 2 (by norm_num) [10, 11, 12] 0
    (fun s => [s]) (by decide)
  refine ⟨h.1, ?_⟩
  rw [h.2]
  decide

/-- C3: every gateway compose call issued by `compose` takes as inputs
exactly the accumulator prepended as input 0 followed by one chunk in
chunk order; for every chunk size `K ≥ 1` the call's total input count
is between 2 and `K + 1`, so a provider ceiling of `K + 1` (31 + 1 for
the default) is never exceeded and the `InvalidInputCount` branch is
unreachable. -/
theorem C3_input_counts [DecidableEq α] (k : Nat) (hk : 1 ≤ k)
    (slices : List α) (final : α) (store0 : α → List α)
    (fails : Nat → Bool) :
    ∀ tgt ins ok,
      GEvent.composeCall tgt ins ok ∈
        (compose final slices store0 fails k).events →
      tgt = final ∧ ins.head? = some final ∧
      (∃ c ∈ generate_composition_chunks k slices, ins = final :: c) ∧
      2 ≤ ins.length ∧ ins.length ≤ k + 1 := by
  intro tgt ins ok hmem
  rw [compose_events] at hmem
  rcases List.mem_cons.mp hmem with h | h
  · simp at h
  · obtain ⟨htgt, c, hc, hins⟩ := composeCall_mem_composeLoop final fails 1 _
      (generate_composition_chunks k slices) tgt ins ok h
    obtain ⟨hne, hlen⟩ := mem_generate_composition_chunks k hk slices c hc
    have hcpos : 1 ≤ c.length := List.length_pos.mpr hne
    subst hins
    refine ⟨htgt, rfl, ⟨c, hc, rfl⟩, ?_, ?_⟩
    · simp only [List.length_cons]
      omega
    · simp only [List.length_cons]
      omega

/-- Witness for C3: the first compose call of a 3-slice run with
`K = 2` has the accumulator first and 3 = K + 1 inputs. -/
theorem C3_witness :
    ([0, 1, 2] : List Nat).head? = some 0 ∧
    2 ≤ ([0, 1, 2] : List Nat).length ∧
    ([0, 1, 2] : List Nat).length ≤ 2 + 1 := by
  have hmem : GEvent.composeCall 0 [0, 1, 2] true ∈
      (compose 0 [1, 2, 3] (fun s => [s]) (fun _ => false) 2).events := by
    decide
  have h := C3_input_counts 2 (by norm_num) [1, 2, 3] 0 (fun s => [s])
    (fun _ => false) 0 [0, 1, 2] true hmem
  exact ⟨h.2.1, h.2.2.2.1, h.2.2.2.2⟩

/-- C4: if the `i`-th gateway compose call fails, calls `1..i-1` have
already succeeded, the accumulator holds exactly the concatenation of
the first `i-1` chunks' contents, no call `i+1` is attempted, no
cleanup dispatch is issued for the failing chunk, and the failure is
surfaced to the caller, aborting the run. -/
theorem C4_failure_aborts [DecidableEq α] (k : Nat) (hk : 1 ≤ k)
    (slices : List α) (final : α) (store0 : α → List α)
    (fails : Nat → Bool) (i : Nat) (hfin : final ∉ slices) (hi : 1 ≤ i)
    (hiN : i ≤ (generate_composition_chunks k slices).length)
    (hfi : fails i = true)
    (hbelow : ∀ j, 1 ≤ j → j < i → fails j = false) :
    (compose final slices store0 fails k).result = Except.error i ∧
    ((compose final slices store0 fails k).events.filter
        isComposeCall).length = i ∧
    deleteBatches (compose final slices store0 fails k).events =
      (generate_composition_chunks k slices).take (i - 1) ∧
    (compose final slices store0 fails k).store final =
      (((generate_composition_chunks k slices).take (i - 1)).flatten.map
        store0).flatten := by
  have hp : i - 1 < (generate_composition_chunks k slices).length := by
    omega
  have hfp : fails (1 + (i - 1)) = true := by
    rw [show 1 + (i - 1) = i by omega]
    exact hfi
  have hb : ∀ j, 1 ≤ j → j < 1 + (i - 1) → fails j = false :=
    fun j h1 h2 => hbelow j h1 (by omega)
  refine ⟨?_, ?_, ?_, ?_⟩
  · rw [compose_result,
      composeLoop_result_firstFail final fails 1 (i - 1) _ _ hp hfp hb,
      show 1 + (i - 1) = i by omega]
    rfl
  · rw [compose_events]
    simp only [List.filter_cons, isComposeCall, Bool.false_eq_true, if_false]
    rw [composeLoop_count_firstFail final fails 1 (i - 1) _ _ hp hfp hb]
    omega
  · rw [compose_events]
    simp only [deleteBatches]
    rw [composeLoop_batches_firstFail final fails 1 (i - 1) _ _ hp hfp hb]
  · rw [compose_store,
      composeLoop_storeFinal_firstFail final fails 1 (i - 1) _ _
        (fun c hc hmem => hfin (mem_chunk_mem k slices c hc final hmem))
        hp hfp hb,
      Function.update_same, List.nil_append]
    congr 1
    apply List.map_congr_left
    intro x hx
    have hxs : x ∈ slices := by
      rcases List.mem_flatten.mp hx with ⟨c, hc, hxc⟩
      exact mem_chunk_mem k slices c (List.take_subset _ _ hc) x hxc
    have hxf : x ≠ final := fun hh => hfin (hh ▸ hxs)
    exact Function.update_noteq hxf _ store0

/-- Witness for C4: with `K = 1` and the second compose call failing,
the run errors at index 2 after exactly 2 calls, only the first chunk
is dispatched for cleanup, and the accumulator holds only the first
chunk's content. -/
theorem C4_witness :
    (compose 0 [5, 6, 7] (fun s => [s]) (fun j => decide (j = 2))
        1).result = Except.error 2 ∧
    ((compose 0 [5, 6, 7] (fun s => [s]) (fun j => decide (j = 2))
        1).events.filter isComposeCall).length = 2 ∧
    deleteBatches (compose 0 [5, 6, 7] (fun s => [s])
        (fun j => decide (j = 2)) 1).events =
      (generate_composition_chunks 1 [5, 6, 7]).take (2 - 1) ∧
    (compose 0 [5, 6, 7] (fun s => [s]) (fun j => decide (j = 2))
        1).store 0 =
      (((generate_composition_chunks 1 [5, 6, 7]).take (2 - 1)).flatten.map
        (fun s => [s])).flatten :=
  C4_failure_aborts 1 (by norm_num) [5, 6, 7] 0 (fun s => [s])
    (fun j => decide (j = 2)) 2 (by decide) (by norm_num) (by decide)
    (by decide)
    (fun j h1 h2 => by
      have : j = 1 := by omega
      subst this
      rfl)

/-- C5: in a completed run every input slice is handed to the cleanup
dispatcher in exactly one batch (the batches concatenate back to the
slice list), and in every run — failing or not — a deletion is only
ever submitted after a successful compose call whose inputs contain the
deleted slice. -/
theorem C5_cleanup_once_after_success [DecidableEq α] (k : Nat)
    (hk : 1 ≤ k) (slices : List α) (final : α) (store0 : α → List α) :
    (deleteBatches (compose final slices store0 (fun _ => false)
        k).events).flatten = slices ∧
    (∀ fails : Nat → Bool,
      submitsCovered [] (compose final slices store0 fails k).events =
        true) := by
  constructor
  · rw [compose_events]
    simp only [deleteBatches]
    rw [composeLoop_batches_allOk final (fun _ => false) (fun _ => rfl) 1 _ _,
      flatten_generate_composition_chunks k slices]
  · intro fails
    rw [compose_events]
    simp only [submitsCovered]
    exact submitsCovered_composeLoop final fails 1 _ _ []

/-- Witness for C5 with three slices, chunk size 2 and (for the
ordering part) a run whose first compose call fails. -/
theorem C5_witness :
    (deleteBatches (compose 0 [1, 2, 3] (fun s => [s]) (fun _ => false)
        2).events).flatten = [1, 2, 3] ∧
    submitsCovered [] (compose 0 [1, 2, 3] (fun s => [s])
      (fun j => decide (j = 1)) 2).events = true :=
  ⟨(C5_cleanup_once_after_success 2 (by norm_num) [1, 2, 3] 0
      (fun s => [s])).1,
    (C5_cleanup_once_after_success 2 (by norm_num) [1, 2, 3] 0
      (fun s => [s])).2 (fun j => decide (j = 1))⟩

/-- C6: the accumulator is never handed to a delete operation: every
cleanup batch is exactly one chunk of the original slices (so it
excludes the accumulator), and every submitted deletion is an original
slice distinct from the accumulator — in every run. -/
theorem C6_accumulator_never_deleted [DecidableEq α] (k : Nat)
    (hk : 1 ≤ k) (slices : List α) (final : α) (store0 : α → List α)
    (fails : Nat → Bool) (hfin : final ∉ slices) :
    (∀ bs, GEvent.deleteBatch bs ∈
        (compose final slices store0 fails k).events →
      bs ∈ generate_composition_chunks k slices ∧ final ∉ bs) ∧
    (∀ b, GEvent.deleteSubmit b ∈
        (compose final slices store0 fails k).events →
      b ∈ slices ∧ b ≠ final) := by
  constructor
  · intro bs hmem
    rw [compose_events] at hmem
    rcases List.mem_cons.mp hmem with h | h
    · simp at h
    · have hbs := deleteBatch_mem_composeLoop final fails 1 _ _ bs h
      exact ⟨hbs,
        fun hmemf => hfin (mem_chunk_mem k slices bs hbs final hmemf)⟩
  · intro b hmem
    rw [compose_events] at hmem
    rcases List.mem_cons.mp hmem with h | h
    · simp at h
    · rcases deleteSubmit_mem_composeLoop final fails 1 _ _ b h with
        ⟨c, hc, hb⟩
      have hbs : b ∈ slices := mem_chunk_mem k slices c hc b hb
      exact ⟨hbs, fun hb0 => hfin (hb0 ▸ hbs)⟩

/-- Witness for C6: in a 3-slice run with `K = 2`, the first batch is
the first chunk and excludes the accumulator, and slice 1's submitted
deletion is an original slice distinct from the accumulator. -/
theorem C6_witness :
    ([1, 2] ∈ generate_composition_chunks 2 [1, 2, 3] ∧
      (0 : Nat) ∉ [1, 2]) ∧
    ((1 : Nat) ∈ [1, 2, 3] ∧ (1 : Nat) ≠ 0) :=
  ⟨(C6_accumulator_never_deleted 2 (by norm_num) [1, 2, 3] 0
      (fun s => [s]) (fun _ => false) (by decide)).1 [1, 2] (by decide),
    (C6_accumulator_never_deleted 2 (by norm_num) [1, 2, 3] 0
      (fun s => [s]) (fun _ => false) (by decide)).2 1 (by decide)⟩

/-- C7: the chunker is pure and total for every chunk size `K ≥ 1`: the
source loop terminates with fuel equal to the input length, yielding
the finitely many (`⌈N/K⌉`) chunks of `generate_composition_chunks`;
for an invalid chunk size (`K ≤ 0`) and a nonempty input the loop never
terminates, so only an invalid `K` makes the chunker fail. -/
theorem C7_chunker_total (k : Int) (s : List α) :
    (1 ≤ k →
      chunksLoop k s.length s =
        some (generate_composition_chunks k.toNat s) ∧
      (generate_composition_chunks k.toNat s).length =
        (s.length + k.toNat - 1) / k.toNat) ∧
    (k ≤ 0 → s ≠ [] → ∀ fuel, chunksLoop k fuel s = none) := by
  constructor
  · intro hk
    exact ⟨chunksLoop_eq_generate_composition_chunks k hk s.length s le_rfl,
      length_generate_composition_chunks k.toNat (by omega) s⟩
  · intro hk hs fuel
    exact chunksLoop_diverges k hk fuel s hs

/-- Witness for C7: the loop terminates on a 4-element list with
`K = 3` and runs out of any amount of fuel for `K = 0`. -/
theorem C7_witness :
    chunksLoop 3 4 ([1, 2, 3, 4] : List Nat) =
      some (generate_composition_chunks 3 [1, 2, 3, 4]) ∧
    chunksLoop 0 5 ([1] : List Nat) = none :=
  ⟨((C7_chunker_total 3 [1, 2, 3, 4]).1 (by norm_num)).1,
    (C7_chunker_total 0 [1]).2 (by norm_num) (by decide) 5⟩

/-- C8: in every run, at least the minimum mutation interval (1000 ms
of sleep) separates any two consecutive gateway compose calls,
regardless of how long the calls themselves took. -/
theorem C8_min_mutation_interval [DecidableEq α] (k : Nat) (hk : 1 ≤ k)
    (slices : List α) (final : α) (store0 : α → List α)
    (fails : Nat → Bool) :
    minGapOk 1000 (compose final slices store0 fails k).events = true := by
  rw [minGapOk, compose_events]
  simp only [gapsFrom]
  exact gapsFrom_composeLoop final fails 1 _ _ 1000 le_rfl

/-- Witness for C8 at the spec's example: `N = 2` slices with `K = 1`
give two compose calls at least 1 s apart. -/
theorem C8_witness :
    minGapOk 1000 (compose 0 [1, 2] (fun s => [s]) (fun _ => false)
      1).events = true :=
  C8_min_mutation_interval 1 (by norm_num) [1, 2] 0 (fun s => [s])
    (fun _ => false)

/-- C9: the `compose` of `src/single-accumulator.py` and the `compose`
of `src/list-files.py` are equivalent with respect to composition: for
the same destination path, slices, store and gateway outcomes they
create the same accumulator, issue the identical ordered sequence of
compose calls with identical input lists, and end with the same store
and result — and the `list-files.py` variant issues no deletion events
at all. -/
theorem C9_variants_equivalent [DecidableEq α] (k : Nat) (slices : List α)
    (final : α) (store0 : α → List α) (fails : Nat → Bool) :
    (ListFiles.compose final slices store0 fails k).events.head? =
      some (GEvent.createEmpty final) ∧
    (compose final slices store0 fails k).events.head? =
      some (GEvent.createEmpty final) ∧
    (ListFiles.compose final slices store0 fails k).events.filter
        isComposeCall =
      (compose final slices store0 fails k).events.filter isComposeCall ∧
    (ListFiles.compose final slices store0 fails k).store =
      (compose final slices store0 fails k).store ∧
    (ListFiles.compose final slices store0 fails k).result =
      (compose final slices store0 fails k).result ∧
    (∀ e ∈ (ListFiles.compose final slices store0 fails k).events,
      isDeleteEvent e = false) := by
  obtain ⟨hst, hres, hcc, hdel⟩ := composeLoop_equiv_listFiles final fails 1
    (Function.update store0 final [])
    (generate_composition_chunks k slices)
  refine ⟨?_, ?_, ?_, ?_, ?_, ?_⟩
  · rw [listFiles_compose_events, List.head?_cons]
  · rw [compose_events, List.head?_cons]
  · rw [listFiles_compose_events, compose_events]
    simp only [List.filter_cons, isComposeCall, Bool.false_eq_true,
      if_false]
    exact hcc
  · rw [listFiles_compose_store, compose_store]
    exact hst
  · rw [listFiles_compose_result, compose_result, hres]
  · intro e he
    rw [listFiles_compose_events] at he
    rcases List.mem_cons.mp he with rfl | he'
    · rfl
    · exact hdel e he'

/-- C10: `compose` never mutates the caller's slice list: each chunk
yielded by the generator is a fresh copy, so the in-place
`chunk.insert(0, final_blob)` touches only the chunk object, and after
the run the caller's list reads back with exactly its original elements
in their original order. -/
theorem C10_no_caller_mutation (final : α) (k : Nat) (hk : 1 ≤ k)
    (h : PyHeap α) (slicesRef : Nat)
    (href : slicesRef < h.cells.length) :
    (composeHeap final k h slicesRef).read slicesRef =
      h.read slicesRef :=
  composeHeapLoop_frame final k (h.read slicesRef) h slicesRef href

/-- Witness for C10: a heap holding one 3-element slice list; after the
run the caller's list is unchanged. -/
theorem C10_witness :
    (composeHeap 0 2 ⟨[[1, 2, 3]]⟩ 0).read 0 = [1, 2, 3] :=
  (C10_no_caller_mutation 0 2 (by norm_num) ⟨[[1, 2, 3]]⟩ 0
    (by decide)).trans (by decide)

end RecursiveCompose
